import Mathlib

/-!
Shallow embedding of the state-coordination layer of the article-assistant
repository: the `StructureManager`, `StyleManager` and `KnowledgeBase` stores
(`article_assistant/tools/*.py`) together with the data model
(`article_assistant/types.py`), and proofs of the specified properties.

Python strings are modelled as Lean `String` (a list of unicode scalar
values); Python `int` as `Int`; Python `list` as `List`; Python `set` as
`Finset`; methods that can raise become functions into `Except String` /
`Option`; methods that mutate `self` return the updated store value.
-/

/-- Characters on which Python `str.split()` splits: the characters `c` with
`c.isspace()` true (ASCII whitespace, the C1 separators, and the Unicode
space/line/paragraph separators). -/
def isPySpace (c : Char) : Bool :=
  [0x09, 0x0A, 0x0B, 0x0C, 0x0D, 0x1C, 0x1D, 0x1E, 0x1F, 0x20, 0x85, 0xA0,
   0x1680, 0x2000, 0x2001, 0x2002, 0x2003, 0x2004, 0x2005, 0x2006, 0x2007,
   0x2008, 0x2009, 0x200A, 0x2028, 0x2029, 0x202F, 0x205F, 0x3000].contains c.toNat

/-- Worker for `pySplit`: `cur` is the (reversed) current run of non-space
characters accumulated so far. -/
def pySplitGo (cur : List Char) : List Char → List (List Char)
  | [] => if cur.isEmpty then [] else [cur.reverse]
  | c :: rest =>
    if isPySpace c then
      if cur.isEmpty then pySplitGo [] rest
      else cur.reverse :: pySplitGo [] rest
    else pySplitGo (c :: cur) rest

/-- Python `s.split()` with no argument: the maximal runs of non-whitespace
characters of `s`, with no empty tokens. -/
def pySplit (cs : List Char) : List (List Char) := pySplitGo [] cs

/-- The character class of the regex `[一-鿿]` used by
`SectionInfo.word_count` (CJK Unified Ideographs). -/
def isCJK (c : Char) : Bool := 0x4e00 ≤ c.toNat && c.toNat ≤ 0x9fff

/-- Number of maximal runs of characters satisfying `p`, given whether the
previous character satisfied `p`. -/
def runCountFrom (p : Char → Bool) : Bool → List Char → Nat
  | _, [] => 0
  | prevIn, c :: rest =>
    (if p c && !prevIn then 1 else 0) + runCountFrom p (p c) rest

/-- Number of maximal runs of characters satisfying `p` in a character list. -/
def runCount (p : Char → Bool) (cs : List Char) : Nat := runCountFrom p false cs

/-- ASCII Latin letters. -/
def isLatinLetter (c : Char) : Bool :=
  ('a' ≤ c && c ≤ 'z') || ('A' ≤ c && c ≤ 'Z')

/-- Number of CJK ideographs occurring in a string (`re.findall` of the class
`[一-鿿]`, counted). -/
def cjkCount (s : String) : Nat := (s.data.filter isCJK).length

/-- Number of maximal runs of ASCII Latin letters in a string; used to state
"contains n Latin words". -/
def latinWordCount (s : String) : Nat := runCount isLatinLetter s.data

/-- Embedding of `OutlineItem` (`types.py`). -/
structure OutlineItem where
  title : String
  purpose : String
  argument : String
  expected_conclusion : String
  expected_length : Int
  deriving DecidableEq, Repr

/-- Embedding of `Outline` (`types.py`). -/
structure Outline where
  outline_items : List OutlineItem
  deriving DecidableEq, Repr

/-- Embedding of `StyleGuide` (`types.py`). -/
structure StyleGuide where
  main_language : String
  tone : String
  voice : String
  target_audience : String
  formatting_preferences : String
  deriving DecidableEq, Repr

/-- Embedding of `SectionInfo` (`types.py`). -/
structure SectionInfo where
  section_index : Int
  heading : String
  contents : String
  summary : String
  deriving DecidableEq, Repr

/-- Embedding of the derived property `SectionInfo.word_count`:
`len(self.contents.split()) + len(re.findall(r"[一-鿿]", self.contents))`. -/
def SectionInfo.word_count (s : SectionInfo) : Nat :=
  (pySplit s.contents.data).length + (s.contents.data.filter isCJK).length

/-- Embedding of `ConceptInfo` (`types.py`). -/
structure ConceptInfo where
  name : String
  definition : String
  relevance : String
  deriving DecidableEq, Repr

theorem pySplitGo_length (cs : List Char) : ∀ cur : List Char,
    (pySplitGo cur cs).length
      = runCountFrom (fun c => !isPySpace c) (!cur.isEmpty) cs
        + (if cur.isEmpty then 0 else 1) := by
  induction cs with
  | nil =>
    intro cur
    cases cur <;> simp [pySplitGo, runCountFrom, List.isEmpty]
  | cons c rest ih =>
    intro cur
    by_cases hc : isPySpace c
    · cases cur <;>
        simp [pySplitGo, runCountFrom, hc, List.isEmpty, ih, Nat.add_comm]
    · cases cur <;>
        simp [pySplitGo, runCountFrom, hc, List.isEmpty, ih, Nat.add_comm]

/-- The number of tokens produced by Python `split()` is the number of maximal
non-whitespace runs. -/
theorem pySplit_length (cs : List Char) :
    (pySplit cs).length = runCount (fun c => !isPySpace c) cs := by
  simpa [pySplit, runCount, List.isEmpty] using pySplitGo_length cs []

/-- C2 (counterexample): the contents `"中文字 hello"` has 3 CJK ideographs and
1 Latin word, yet its word_count is 5, not 4 as the claim states (each CJK
ideograph is counted once individually and once more as part of the
whitespace-delimited token `"中文字"`). -/
theorem word_count_cjk_example_false :
    cjkCount "中文字 hello" = 3 ∧ latinWordCount "中文字 hello" = 1
    ∧ (SectionInfo.mk 0 "h" "中文字 hello" "s").word_count = 5
    ∧ (SectionInfo.mk 0 "h" "中文字 hello" "s").word_count ≠ 4 := by
  refine ⟨by decide, by decide, by decide, by decide⟩

/-- C2 (amended): `word_count` equals the number of whitespace-delimited
tokens of `contents` plus one additional count for each CJK ideograph
occurring in `contents`; for contents `"hello world"` the count is 2; for a
contents with 3 CJK ideographs and 1 Latin word the count is 4 when they form
a single whitespace-delimited token (e.g. `"中文字hello"`), and 5 when the
ideographs and the word are whitespace-separated (e.g. `"中文字 hello"`). -/
theorem word_count_formula :
    (∀ s : SectionInfo,
      s.word_count = runCount (fun c => !isPySpace c) s.contents.data
        + cjkCount s.contents)
    ∧ (∀ s : SectionInfo, s.contents = "hello world" → s.word_count = 2)
    ∧ (∀ s : SectionInfo, s.contents = "中文字hello" →
        cjkCount s.contents = 3 ∧ latinWordCount s.contents = 1
          ∧ s.word_count = 4)
    ∧ (∀ s : SectionInfo, s.contents = "中文字 hello" →
        cjkCount s.contents = 3 ∧ latinWordCount s.contents = 1
          ∧ s.word_count = 5) := by
  refine ⟨fun s => ?_, fun s h => ?_, fun s h => ?_, fun s h => ?_⟩
  · rw [SectionInfo.word_count, pySplit_length, cjkCount]
  · simp only [SectionInfo.word_count, h]; decide
  · refine ⟨?_, ?_, ?_⟩ <;>
      simp only [SectionInfo.word_count, cjkCount, latinWordCount, h] <;> decide
  · refine ⟨?_, ?_, ?_⟩ <;>
      simp only [SectionInfo.word_count, cjkCount, latinWordCount, h] <;> decide

/-- C2 (witness): the amended word-count facts evaluated on concrete
sections. -/
theorem word_count_formula_witness :
    (SectionInfo.mk 0 "h" "hello world" "s").word_count = 2
    ∧ (SectionInfo.mk 0 "h" "中文字hello" "s").word_count = 4 :=
  ⟨word_count_formula.2.1 _ rfl, (word_count_formula.2.2.1 _ rfl).2.2⟩

/-- Python list indexing `l[i]` with an `int` index: negative indices count
from the end; `none` models the `IndexError`. -/
def pyGet {α : Type} (l : List α) (i : Int) : Option α :=
  if i < 0 then
    if 0 ≤ i + l.length then l[(i + l.length).toNat]? else none
  else l[i.toNat]?

/-- Python list slicing `l[:i]` with an `int` stop: negative stops count from
the end, and the result is clamped to the available elements. -/
def pyTakeInt {α : Type} (l : List α) (i : Int) : List α :=
  if i < 0 then l.take (i + l.length).toNat else l.take i.toNat

/-- Python string slicing `s[:n]` for a nonnegative `n`. -/
def pyStrTake (s : String) (n : Nat) : String := String.mk (s.data.take n)

/-- Embedding of `StructureManager` (`tools/structure_manager.py`): outline,
sections, keywords, title, and the private set `_existed_section_idxs`. -/
structure StructureManager where
  outline : Outline
  sections : List SectionInfo
  keywords : List String
  title : String
  existed_section_idxs : Finset Int
  deriving DecidableEq

/-- The freshly constructed `StructureManager()` (all pydantic defaults). -/
def StructureManager.init : StructureManager :=
  { outline := ⟨[]⟩, sections := [], keywords := [], title := ""
    existed_section_idxs := ∅ }

/-- Embedding of `StructureManager.set_outline`. -/
def StructureManager.set_outline (sm : StructureManager) (o : Outline) :
    StructureManager :=
  { sm with outline := o }

/-- Embedding of `StructureManager.list_outline_items`. -/
def StructureManager.list_outline_items (sm : StructureManager) :
    List OutlineItem :=
  sm.outline.outline_items

/-- Embedding of `StructureManager.get_section_plan`:
`self.outline.outline_items[section_index]`, `none` modelling `IndexError`. -/
def StructureManager.get_section_plan (sm : StructureManager)
    (section_index : Int) : Option OutlineItem :=
  pyGet sm.outline.outline_items section_index

/-- The sections rendered by `get_context_summary`: the Python slice
`self.sections[:section_index]`. -/
def StructureManager.contextSections (sm : StructureManager)
    (section_index : Int) : List SectionInfo :=
  pyTakeInt sm.sections section_index

/-- Embedding of `StructureManager.get_context_summary`: the header line
followed by one `"- {heading}: {contents[:100]}...\n"` line per section of
the slice `self.sections[:section_index]`. -/
def StructureManager.get_context_summary (sm : StructureManager)
    (section_index : Int) : String :=
  "Previous Sections Summary:\n"
    ++ String.join ((sm.contextSections section_index).map fun sec =>
        "- " ++ sec.heading ++ ": " ++ pyStrTake sec.contents 100 ++ "...\n")

/-- Embedding of `StructureManager.add_section`: a no-op when the index is
already present in `_existed_section_idxs`, otherwise append the section and
record its index. -/
def StructureManager.add_section (sm : StructureManager) (s : SectionInfo) :
    StructureManager :=
  if s.section_index ∈ sm.existed_section_idxs then sm
  else
    { sm with
      sections := sm.sections ++ [s]
      existed_section_idxs := insert s.section_index sm.existed_section_idxs }

/-- Worker for `modify_section`: replace the contents of the first section
whose `section_index` matches, `none` when no section matches. -/
def modifyFirst (i : Int) (c : String) :
    List SectionInfo → Option (List SectionInfo)
  | [] => none
  | s :: rest =>
    if s.section_index = i then some ({ s with contents := c } :: rest)
    else (modifyFirst i c rest).map (s :: ·)

/-- Embedding of `StructureManager.modify_section`: in-place contents replace
on the first matching section; `ValueError` when no section matches. -/
def StructureManager.modify_section (sm : StructureManager)
    (section_index : Int) (new_content : String) :
    Except String StructureManager :=
  match modifyFirst section_index new_content sm.sections with
  | some l => .ok { sm with sections := l }
  | none =>
    .error ("Section with index " ++ toString section_index ++ " not found.")

/-- Embedding of `StructureManager.get_section`: first section with the given
index; `ValueError` when no section matches. -/
def StructureManager.get_section (sm : StructureManager)
    (section_index : Int) : Except String SectionInfo :=
  match sm.sections.find? (fun s => s.section_index == section_index) with
  | some s => .ok s
  | none =>
    .error ("Section with index " ++ toString section_index ++ " not found.")

/-- Embedding of `StructureManager.total_word_count`. -/
def StructureManager.total_word_count (sm : StructureManager) : Nat :=
  (sm.sections.map SectionInfo.word_count).sum

/-- The `"## {heading}\n\n{contents}"` block rendered for one section by
`to_markdown`. -/
def renderSection (s : SectionInfo) : String :=
  "## " ++ s.heading ++ "\n\n" ++ s.contents

/-- Embedding of `StructureManager.to_markdown`: sorts the stored sections by
`section_index` (a stable sort, mutating the stored order — the second
component is the post-call state) and renders title, keyword line and the
section blocks. -/
def StructureManager.to_markdown (sm : StructureManager) :
    String × StructureManager :=
  let sorted := sm.sections.mergeSort
    (fun a b => a.section_index ≤ b.section_index)
  ("# " ++ sm.title ++ "\n\n"
      ++ "Keywords: " ++ String.intercalate ", " sm.keywords ++ "\n\n"
      ++ String.intercalate "\n\n" (sorted.map renderSection),
   { sm with sections := sorted })

/-- Embedding of `StructureManager.set_keywords`. -/
def StructureManager.set_keywords (sm : StructureManager)
    (keywords : List String) : StructureManager :=
  { sm with keywords := keywords }

/-- Embedding of `StructureManager.get_keywords`. -/
def StructureManager.get_keywords (sm : StructureManager) : List String :=
  sm.keywords

/-- Embedding of `StructureManager.set_title`. -/
def StructureManager.set_title (sm : StructureManager) (title : String) :
    StructureManager :=
  { sm with title := title }

/-- Embedding of `StructureManager.get_title`. -/
def StructureManager.get_title (sm : StructureManager) : String :=
  sm.title

/-- The internal consistency invariant of `StructureManager`: stored sections
have pairwise-distinct `section_index` values and `_existed_section_idxs` is
exactly the set of stored indices. -/
def StructureManager.Inv (sm : StructureManager) : Prop :=
  (sm.sections.map SectionInfo.section_index).Nodup
    ∧ sm.existed_section_idxs
        = (sm.sections.map SectionInfo.section_index).toFinset

instance (sm : StructureManager) : Decidable sm.Inv := by
  unfold StructureManager.Inv; infer_instance

/-- The per-section effect of `modify_section` on a matching section: replace
`contents`, leaving `section_index`, `heading` and `summary` unchanged. -/
def updContents (i : Int) (c : String) (s : SectionInfo) : SectionInfo :=
  if s.section_index = i then { s with contents := c } else s

theorem updContents_section_index (i : Int) (c : String) (s : SectionInfo) :
    (updContents i c s).section_index = s.section_index := by
  unfold updContents; split <;> rfl

theorem map_updContents_of_not_mem (i : Int) (c : String) :
    ∀ l : List SectionInfo, i ∉ l.map SectionInfo.section_index →
      l.map (updContents i c) = l := by
  intro l
  induction l with
  | nil => intro _; rfl
  | cons s rest ih =>
    intro hmem
    simp only [List.map_cons, List.mem_cons, List.map] at hmem ⊢
    push_neg at hmem
    rw [updContents, if_neg (fun hs => hmem.1 hs.symm), ih hmem.2]

theorem modifyFirst_eq_none (i : Int) (c : String) :
    ∀ l : List SectionInfo, i ∉ l.map SectionInfo.section_index →
      modifyFirst i c l = none := by
  intro l
  induction l with
  | nil => intro _; rfl
  | cons s rest ih =>
    intro hmem
    simp only [List.map_cons, List.mem_cons] at hmem
    push_neg at hmem
    rw [modifyFirst, if_neg (fun hs => hmem.1 hs.symm), ih hmem.2]
    rfl

theorem modifyFirst_eq_map (i : Int) (c : String) :
    ∀ l : List SectionInfo, (l.map SectionInfo.section_index).Nodup →
      i ∈ l.map SectionInfo.section_index →
      modifyFirst i c l = some (l.map (updContents i c)) := by
  intro l
  induction l with
  | nil => intro _ hmem; cases hmem
  | cons s rest ih =>
    intro hnd hmem
    simp only [List.map_cons, List.nodup_cons] at hnd
    by_cases hs : s.section_index = i
    · rw [modifyFirst, if_pos hs, List.map_cons, updContents, if_pos hs,
        map_updContents_of_not_mem i c rest (hs ▸ hnd.1)]
    · have hmem' : i ∈ rest.map SectionInfo.section_index := by
        rcases List.mem_cons.mp hmem with h | h
        · exact absurd h.symm hs
        · exact h
      rw [modifyFirst, if_neg hs, ih hnd.2 hmem']
      simp only [Option.map_some', List.map_cons, updContents, if_neg hs]

theorem map_section_index_updContents (i : Int) (c : String)
    (l : List SectionInfo) :
    (l.map (updContents i c)).map SectionInfo.section_index
      = l.map SectionInfo.section_index := by
  rw [List.map_map]
  exact List.map_congr_left fun s _ => updContents_section_index i c s

/-- C1: `add_section` is idempotent by `section_index`. On any state
satisfying the internal invariant, if the section's index is already present
then `add_section` is a no-op returning the state unchanged (no error, no
overwrite); `add_section` twice equals `add_section` once; and after adding
twice exactly one stored section carries that index. -/
theorem add_section_idempotent (sm : StructureManager) (S : SectionInfo)
    (h : sm.Inv) :
    (S.section_index ∈ sm.existed_section_idxs → sm.add_section S = sm)
    ∧ (sm.add_section S).add_section S = sm.add_section S
    ∧ (((sm.add_section S).add_section S).sections.map
        SectionInfo.section_index).count S.section_index = 1 := by
  by_cases hmem : S.section_index ∈ sm.existed_section_idxs
  · have hnoop : sm.add_section S = sm := by
      rw [StructureManager.add_section, if_pos hmem]
    have hcount : (sm.sections.map SectionInfo.section_index).count
        S.section_index = 1 := by
      apply List.count_eq_one_of_mem h.1
      rw [← List.mem_toFinset, ← h.2]
      exact hmem
    exact ⟨fun _ => hnoop, by rw [hnoop, hnoop], by rw [hnoop, hnoop]; exact hcount⟩
  · have hadd : sm.add_section S =
        { sm with
          sections := sm.sections ++ [S]
          existed_section_idxs :=
            insert S.section_index sm.existed_section_idxs } := by
      rw [StructureManager.add_section, if_neg hmem]
    have hmem2 : S.section_index ∈ (sm.add_section S).existed_section_idxs := by
      rw [hadd]; exact Finset.mem_insert_self _ _
    have hnoop2 : (sm.add_section S).add_section S = sm.add_section S := by
      rw [StructureManager.add_section, if_pos hmem2]
    have hnotin : S.section_index ∉ sm.sections.map SectionInfo.section_index := by
      rw [← List.mem_toFinset, ← h.2]
      exact hmem
    refine ⟨fun habs => absurd habs hmem, hnoop2, ?_⟩
    rw [hnoop2, hadd]
    simp only [List.map_append, List.count_append, List.map_cons, List.map_nil]
    rw [List.count_eq_zero.mpr hnotin]
    simp

/-- C1 (witness): adding the same section twice to the empty manager leaves
exactly one stored section with its index. -/
theorem add_section_idempotent_witness :
    StructureManager.Inv StructureManager.init
    ∧ (((StructureManager.init.add_section ⟨0, "h", "c", "s"⟩).add_section
          ⟨0, "h", "c", "s"⟩).sections.map SectionInfo.section_index).count 0
        = 1 :=
  ⟨by decide,
   (add_section_idempotent StructureManager.init ⟨0, "h", "c", "s"⟩
      (by decide)).2.2⟩

theorem add_section_inv (sm : StructureManager) (h : sm.Inv)
    (s : SectionInfo) : (sm.add_section s).Inv := by
  by_cases hmem : s.section_index ∈ sm.existed_section_idxs
  · rw [StructureManager.add_section, if_pos hmem]; exact h
  · have hnotin : s.section_index ∉ sm.sections.map SectionInfo.section_index := by
      rw [← List.mem_toFinset, ← h.2]; exact hmem
    rw [StructureManager.add_section, if_neg hmem]
    constructor
    · simp only [List.map_append, List.map_cons, List.map_nil]
      rw [List.nodup_append]
      refine ⟨h.1, List.nodup_singleton _, ?_⟩
      intro a ha hb
      rw [List.mem_singleton] at hb
      exact hnotin (hb ▸ ha)
    · simp only [List.map_append, List.map_cons, List.map_nil,
        List.toFinset_append]
      rw [h.2]
      simp [Finset.insert_eq, Finset.union_comm]

theorem modify_section_inv (sm : StructureManager) (h : sm.Inv) (i : Int)
    (c : String) (sm' : StructureManager)
    (hok : sm.modify_section i c = Except.ok sm') : sm'.Inv := by
  by_cases hmem : i ∈ sm.sections.map SectionInfo.section_index
  · rw [StructureManager.modify_section,
      modifyFirst_eq_map i c sm.sections h.1 hmem] at hok
    cases hok
    constructor
    · rw [map_section_index_updContents]; exact h.1
    · rw [map_section_index_updContents]; exact h.2
  · rw [StructureManager.modify_section,
      modifyFirst_eq_none i c sm.sections hmem] at hok
    cases hok

theorem to_markdown_perm (sm : StructureManager) :
    (sm.to_markdown).2.sections.Perm sm.sections :=
  List.mergeSort_perm sm.sections _

theorem to_markdown_inv (sm : StructureManager) (h : sm.Inv) :
    (sm.to_markdown).2.Inv := by
  have hperm : ((sm.to_markdown).2.sections.map SectionInfo.section_index).Perm
      (sm.sections.map SectionInfo.section_index) :=
    (to_markdown_perm sm).map _
  constructor
  · exact hperm.nodup_iff.mpr h.1
  · have : (sm.to_markdown).2.existed_section_idxs
        = sm.existed_section_idxs := rfl
    rw [this, h.2]
    exact (List.toFinset_eq_of_perm _ _ hperm).symm

/-- C5: every `StructureManager` operation preserves the internal invariant:
the stored sections carry pairwise-distinct `section_index` values and
`_existed_section_idxs` equals exactly the set of stored indices. The
invariant holds of the freshly constructed manager and is preserved by
`set_outline`, `add_section`, `modify_section` (on success; on failure the
state is unchanged), `to_markdown` (which reorders the stored sections) and
`set_title`/`set_keywords`; the query methods (`list_outline_items`,
`get_section_plan`, `get_context_summary`, `get_section`, `get_title`,
`get_keywords`, `total_word_count`) are embedded as pure functions that
return no modified state. -/
theorem structure_manager_inv_preserved (sm : StructureManager)
    (h : sm.Inv) :
    StructureManager.init.Inv
    ∧ (∀ o : Outline, (sm.set_outline o).Inv)
    ∧ (∀ s : SectionInfo, (sm.add_section s).Inv)
    ∧ (∀ (i : Int) (c : String) (sm' : StructureManager),
        sm.modify_section i c = Except.ok sm' → sm'.Inv)
    ∧ (sm.to_markdown).2.Inv
    ∧ (∀ t : String, (sm.set_title t).Inv)
    ∧ (∀ ks : List String, (sm.set_keywords ks).Inv) := by
  refine ⟨by constructor <;> simp [StructureManager.init],
    fun o => h, fun s => add_section_inv sm h s,
    fun i c sm' hok => modify_section_inv sm h i c sm' hok,
    to_markdown_inv sm h, fun t => h, fun ks => h⟩

/-- C5 (witness): the invariant, evaluated after a concrete add on the fresh
manager. -/
theorem structure_manager_inv_preserved_witness :
    StructureManager.Inv
      (StructureManager.init.add_section ⟨0, "h", "c", "s"⟩) :=
  (structure_manager_inv_preserved StructureManager.init
    (by decide)).2.2.1 ⟨0, "h", "c", "s"⟩

/-- C7: `modify_section` on a state with pairwise-distinct stored indices.
When a section with the given index exists, exactly that section's `contents`
is replaced (headings, summaries, indices, the other sections, outline, title,
keywords and the index set are untouched — the result is the same state with
`updContents` mapped over the sections); when none exists the call fails with
the not-found error and no new state is produced; and repeated calls each
apply (a second `modify_section` with new contents overwrites the first, with
no idempotency guard). -/
theorem modify_section_spec (sm : StructureManager)
    (hd : (sm.sections.map SectionInfo.section_index).Nodup)
    (i : Int) (c : String) :
    (i ∈ sm.sections.map SectionInfo.section_index →
        sm.modify_section i c
          = Except.ok
              { sm with sections := sm.sections.map (updContents i c) })
    ∧ (i ∉ sm.sections.map SectionInfo.section_index →
        sm.modify_section i c
          = Except.error
              ("Section with index " ++ toString i ++ " not found."))
    ∧ (∀ s : SectionInfo,
        updContents i c s
          = if s.section_index = i then { s with contents := c } else s)
    ∧ (∀ c' : String,
        (sm.sections.map (updContents i c)).map (updContents i c')
          = sm.sections.map (updContents i c')) := by
  refine ⟨fun hmem => ?_, fun hmem => ?_, fun s => rfl, fun c' => ?_⟩
  · rw [StructureManager.modify_section,
      modifyFirst_eq_map i c sm.sections hd hmem]
  · rw [StructureManager.modify_section,
      modifyFirst_eq_none i c sm.sections hmem]
  · rw [List.map_map]
    refine List.map_congr_left fun s _ => ?_
    by_cases hs : s.section_index = i
    · simp [Function.comp, updContents, hs]
    · simp [Function.comp, updContents, hs]

/-- C7 (witness): modifying the only stored section of a concrete manager
replaces its contents and keeps everything else. -/
theorem modify_section_spec_witness :
    StructureManager.modify_section
        ⟨⟨[]⟩, [⟨0, "h", "c", "s"⟩], [], "", {0}⟩ 0 "new"
      = Except.ok ⟨⟨[]⟩, [⟨0, "h", "new", "s"⟩], [], "", {0}⟩ := by
  rw [(modify_section_spec ⟨⟨[]⟩, [⟨0, "h", "c", "s"⟩], [], "", {0}⟩
    (by decide) 0 "new").1 (by decide)]
  rfl

/-- C3 (counterexample): `get_context_summary` slices by list position, not
by `section_index`. In the (reachable) state holding the single section with
`section_index = 5`, `get_context_summary 1` includes that section even
though 5 ≥ 1, so the summary is not the empty header the claim requires. -/
theorem get_context_summary_counterexample :
    (StructureManager.init.add_section ⟨5, "H", "c", "s"⟩).contextSections 1
        = [⟨5, "H", "c", "s"⟩]
    ∧ (StructureManager.init.add_section
          ⟨5, "H", "c", "s"⟩).get_context_summary 1
        ≠ "Previous Sections Summary:\n" := by
  refine ⟨by decide, by decide⟩

/-- C3 (amended): for `k ≥ 0`, `get_context_summary k` includes exactly the
first `k` sections in stored list order (each rendered from a 100-character
prefix of its contents); `get_context_summary 0` contains zero prior
sections; and only when every stored section sits at the list position equal
to its `section_index` does the digest contain exactly the sections with
`section_index < k`. -/
theorem get_context_summary_spec (sm : StructureManager) (k : Int)
    (hk : 0 ≤ k) :
    sm.get_context_summary 0 = "Previous Sections Summary:\n"
    ∧ sm.contextSections k = sm.sections.take k.toNat
    ∧ (∀ s ∈ sm.contextSections k, s ∈ sm.sections)
    ∧ ((∀ (p : Nat) (hp : p < sm.sections.length),
          (sm.sections.get ⟨p, hp⟩).section_index = (p : Int)) →
        ∀ s : SectionInfo,
          s ∈ sm.contextSections k ↔ s ∈ sm.sections ∧ s.section_index < k) := by
  have htake : sm.contextSections k = sm.sections.take k.toNat := by
    rw [StructureManager.contextSections, pyTakeInt,
      if_neg (by omega : ¬ k < 0)]
  refine ⟨?_, htake, ?_, ?_⟩
  · rw [StructureManager.get_context_summary]
    have h0 : sm.contextSections 0 = [] := by
      rw [StructureManager.contextSections, pyTakeInt]
      simp
    rw [h0]
    simp [String.join]
  · intro s hs
    rw [htake] at hs
    exact List.take_subset _ _ hs
  · intro hpos s
    rw [htake]
    constructor
    · intro hs
      have hmem : s ∈ sm.sections := List.take_subset _ _ hs
      rcases List.mem_iff_getElem.mp hs with ⟨p, hp, hgp⟩
      have hmin : p < min k.toNat sm.sections.length := by
        rw [← List.length_take]
        exact hp
      have hplen : p < sm.sections.length := by omega
      have hpk : p < k.toNat := by omega
      have hgp' : sm.sections[p] = s := by
        have h1 : (sm.sections.take k.toNat)[p]? = sm.sections[p]? :=
          List.getElem?_take_of_lt hpk
        rw [List.getElem?_eq_getElem hp, List.getElem?_eq_getElem hplen]
          at h1
        rw [← hgp]
        exact (Option.some_inj.mp h1).symm
      have hidx : s.section_index = (p : Int) := by
        rw [← hgp']
        exact hpos p hplen
      refine ⟨hmem, ?_⟩
      rw [hidx]
      omega
    · rintro ⟨hmem, hlt⟩
      rcases List.mem_iff_getElem.mp hmem with ⟨p, hp, hgp⟩
      have hidx : s.section_index = (p : Int) := by
        rw [← hgp]
        exact hpos p hp
      have hpk : p < k.toNat := by
        rw [hidx] at hlt
        omega
      apply List.mem_iff_getElem.mpr
      refine ⟨p, ?_, ?_⟩
      · rw [List.length_take]
        omega
      · have h1 : (sm.sections.take k.toNat)[p]? = sm.sections[p]? :=
          List.getElem?_take_of_lt hpk
        have hp' : p < (sm.sections.take k.toNat).length := by
          rw [List.length_take]; omega
        rw [List.getElem?_eq_getElem hp', List.getElem?_eq_getElem hp] at h1
        rw [Option.some_inj.mp h1]
        exact hgp

/-- C3 (witness): the amended context-summary facts evaluated at a concrete
state whose sections sit at positions equal to their indices. -/
theorem get_context_summary_spec_witness :
    StructureManager.get_context_summary
        ⟨⟨[]⟩, [⟨0, "A", "a", "s"⟩, ⟨1, "B", "b", "s"⟩], [], "", {0, 1}⟩ 0
      = "Previous Sections Summary:\n"
    ∧ StructureManager.contextSections
        ⟨⟨[]⟩, [⟨0, "A", "a", "s"⟩, ⟨1, "B", "b", "s"⟩], [], "", {0, 1}⟩ 1
      = [⟨0, "A", "a", "s"⟩] :=
  ⟨(get_context_summary_spec
      ⟨⟨[]⟩, [⟨0, "A", "a", "s"⟩, ⟨1, "B", "b", "s"⟩], [], "", {0, 1}⟩ 0
      (le_refl 0)).1,
   by decide⟩

/-- Index-below-or-equal ordering on sections: strictly smaller
`section_index`, or equal sections. Antisymmetric, which makes the sorted
order of a list with pairwise-distinct indices unique. -/
def secBelow (a b : SectionInfo) : Prop :=
  a.section_index < b.section_index ∨ a = b

instance : IsAntisymm SectionInfo secBelow :=
  ⟨fun a b hab hba => by
    rcases hab with h | h
    · rcases hba with h' | h'
      · exact (lt_asymm h h').elim
      · exact h'.symm
    · exact h⟩

theorem pairwise_secBelow (l : List SectionInfo)
    (hs : l.Pairwise (fun a b => a.section_index ≤ b.section_index))
    (hd : (l.map SectionInfo.section_index).Nodup) :
    l.Pairwise secBelow := by
  rw [List.Nodup, List.pairwise_map] at hd
  exact (hs.and hd).imp fun h => Or.inl (lt_of_le_of_ne h.1 h.2)

theorem eq_of_perm_of_sorted_sections (l₁ l₂ : List SectionInfo)
    (hp : l₁.Perm l₂)
    (h₁ : l₁.Pairwise (fun a b => a.section_index ≤ b.section_index))
    (h₂ : l₂.Pairwise (fun a b => a.section_index ≤ b.section_index))
    (hd : (l₁.map SectionInfo.section_index).Nodup) : l₁ = l₂ := by
  have hd₂ : (l₂.map SectionInfo.section_index).Nodup :=
    ((hp.map _).nodup_iff).mp hd
  exact List.eq_of_perm_of_sorted hp
    (pairwise_secBelow l₁ h₁ hd) (pairwise_secBelow l₂ h₂ hd₂)

theorem to_markdown_sections_sorted (sm : StructureManager) :
    ((sm.to_markdown).2.sections).Pairwise
      (fun a b => a.section_index ≤ b.section_index) := by
  have h := List.sorted_mergeSort
    (fun (a b c : SectionInfo)
      (hab : (fun a b : SectionInfo =>
          decide (a.section_index ≤ b.section_index)) a b)
      (hbc : (fun a b : SectionInfo =>
          decide (a.section_index ≤ b.section_index)) b c) => by
        simp only [decide_eq_true_eq] at *; omega)
    (fun a b => by simp only [Bool.or_eq_true, decide_eq_true_eq]; omega)
    sm.sections
  refine h.imp ?_
  intro a b hab
  simpa using hab

/-- C4: output format and ordering of `to_markdown`. Two managers holding the
same sections in any insertion orders (same title and keywords, indices
pairwise distinct) render the same markdown; the output is
`# {title}`, blank line, `Keywords: {comma-joined}`, blank line, then the
post-call stored sections rendered as `## {heading}`, blank line,
`{contents}`, blank-line separated — and those sections are a permutation of
the stored ones listed in ascending `section_index`. -/
theorem to_markdown_format (sm sm' : StructureManager)
    (hperm : sm.sections.Perm sm'.sections)
    (ht : sm.title = sm'.title) (hk : sm.keywords = sm'.keywords)
    (hd : (sm.sections.map SectionInfo.section_index).Nodup) :
    (sm.to_markdown).1 = (sm'.to_markdown).1
    ∧ (sm.to_markdown).1
        = "# " ++ sm.title ++ "\n\n"
          ++ "Keywords: " ++ String.intercalate ", " sm.keywords ++ "\n\n"
          ++ String.intercalate "\n\n"
              ((sm.to_markdown).2.sections.map renderSection)
    ∧ ((sm.to_markdown).2.sections.map SectionInfo.section_index).Sorted
        (· ≤ ·)
    ∧ (sm.to_markdown).2.sections.Perm sm.sections
    ∧ (∀ s : SectionInfo,
        renderSection s = "## " ++ s.heading ++ "\n\n" ++ s.contents) := by
  have hsorted := to_markdown_sections_sorted sm
  have hsorted' := to_markdown_sections_sorted sm'
  have hpm : (sm.to_markdown).2.sections.Perm sm.sections :=
    to_markdown_perm sm
  have hdm : ((sm.to_markdown).2.sections.map SectionInfo.section_index).Nodup :=
    ((hpm.map _).nodup_iff).mpr hd
  have hsecEq : (sm.to_markdown).2.sections = (sm'.to_markdown).2.sections :=
    eq_of_perm_of_sorted_sections _ _
      ((hpm.trans hperm).trans (to_markdown_perm sm').symm)
      hsorted hsorted' hdm
  refine ⟨?_, rfl, ?_, hpm, fun s => rfl⟩
  · show "# " ++ sm.title ++ "\n\n"
        ++ "Keywords: " ++ String.intercalate ", " sm.keywords ++ "\n\n"
        ++ String.intercalate "\n\n"
            ((sm.to_markdown).2.sections.map renderSection)
      = "# " ++ sm'.title ++ "\n\n"
        ++ "Keywords: " ++ String.intercalate ", " sm'.keywords ++ "\n\n"
        ++ String.intercalate "\n\n"
            ((sm'.to_markdown).2.sections.map renderSection)
    rw [ht, hk, hsecEq]
  · rw [List.Sorted, List.pairwise_map]
    exact hsorted

/-- C4 (witness): two concrete managers holding the same two sections in
opposite insertion orders render identical markdown. -/
theorem to_markdown_format_witness :
    (StructureManager.to_markdown
        ⟨⟨[]⟩, [⟨0, "A", "a", "x"⟩, ⟨1, "B", "b", "y"⟩], ["k"], "T",
          {0, 1}⟩).1
      = (StructureManager.to_markdown
        ⟨⟨[]⟩, [⟨1, "B", "b", "y"⟩, ⟨0, "A", "a", "x"⟩], ["k"], "T",
          {0, 1}⟩).1 :=
  (to_markdown_format
    ⟨⟨[]⟩, [⟨0, "A", "a", "x"⟩, ⟨1, "B", "b", "y"⟩], ["k"], "T", {0, 1}⟩
    ⟨⟨[]⟩, [⟨1, "B", "b", "y"⟩, ⟨0, "A", "a", "x"⟩], ["k"], "T", {0, 1}⟩
    (List.Perm.swap _ _ _) rfl rfl (by decide)).1

/-- C8: `get_section_plan` fails (with the `IndexError` of Python indexing,
modelled as `none`) exactly when the index is out of bounds for the current
outline — at or past its length, or below `-length` — and returns the outline
item at the indexed position otherwise (negative in-bounds indices address
from the end, as Python does). -/
theorem get_section_plan_spec (sm : StructureManager) (i : Int) :
    (sm.get_section_plan i = none
        ↔ (i < -(sm.outline.outline_items.length : Int)
            ∨ (sm.outline.outline_items.length : Int) ≤ i))
    ∧ (0 ≤ i →
        sm.get_section_plan i = sm.outline.outline_items[i.toNat]?)
    ∧ (i < 0 → -(sm.outline.outline_items.length : Int) ≤ i →
        sm.get_section_plan i
          = sm.outline.outline_items[(i + sm.outline.outline_items.length).toNat]?)
    ∧ (0 ≤ i → i < (sm.outline.outline_items.length : Int) →
        ∃ x : OutlineItem, sm.get_section_plan i = some x) := by
  by_cases h1 : i < 0
  · by_cases h2 : 0 ≤ i + (sm.outline.outline_items.length : Int)
    · have heq : sm.get_section_plan i
          = sm.outline.outline_items[(i + sm.outline.outline_items.length).toNat]? := by
        rw [StructureManager.get_section_plan, pyGet, if_pos h1, if_pos h2]
      have hlt : (i + sm.outline.outline_items.length).toNat
          < sm.outline.outline_items.length := by omega
      refine ⟨?_, fun h0 => absurd h0 (by omega), fun _ _ => heq,
        fun h0 => absurd h0 (by omega)⟩
      rw [heq, List.getElem?_eq_none_iff]
      omega
    · have heq : sm.get_section_plan i = none := by
        rw [StructureManager.get_section_plan, pyGet, if_pos h1, if_neg h2]
      refine ⟨?_, fun h0 => absurd h0 (by omega),
        fun _ hge => absurd hge (by omega),
        fun h0 => absurd h0 (by omega)⟩
      rw [heq]
      simp only [true_iff]
      omega
  · have heq : sm.get_section_plan i = sm.outline.outline_items[i.toNat]? := by
      rw [StructureManager.get_section_plan, pyGet, if_neg h1]
    refine ⟨?_, fun _ => heq, fun hneg => absurd hneg h1, fun _ hlt => ?_⟩
    · rw [heq, List.getElem?_eq_none_iff]
      omega
    · rw [heq]
      exact ⟨_, List.getElem?_eq_getElem (by omega)⟩

/-- C8 (witness): on a concrete one-item outline, index 0 is returned, index
1 and index -2 are `IndexError`, index -1 addresses the item from the end. -/
theorem get_section_plan_spec_witness :
    StructureManager.get_section_plan
        ⟨⟨[⟨"t", "p", "a", "e", 10⟩]⟩, [], [], "", ∅⟩ 0
      = some ⟨"t", "p", "a", "e", 10⟩
    ∧ StructureManager.get_section_plan
        ⟨⟨[⟨"t", "p", "a", "e", 10⟩]⟩, [], [], "", ∅⟩ 1 = none := by
  constructor
  · rw [(get_section_plan_spec
      ⟨⟨[⟨"t", "p", "a", "e", 10⟩]⟩, [], [], "", ∅⟩ 0).2.1 (by omega)]
    rfl
  · rw [(get_section_plan_spec
      ⟨⟨[⟨"t", "p", "a", "e", 10⟩]⟩, [], [], "", ∅⟩ 1).1.mpr (by right; decide)]

/-- Embedding of `KnowledgeBase` (`tools/knowledge_base.py`). -/
structure KnowledgeBase where
  concepts : List ConceptInfo
  deriving DecidableEq, Repr

/-- Embedding of `KnowledgeBase.add_concept`: unconditional append, no
deduplication by name. -/
def KnowledgeBase.add_concept (kb : KnowledgeBase) (c : ConceptInfo) :
    KnowledgeBase :=
  { kb with concepts := kb.concepts ++ [c] }

/-- Embedding of `KnowledgeBase.get_concept`: first-match linear scan by
name; `none` is the not-found sentinel (the method never raises). -/
def KnowledgeBase.get_concept (kb : KnowledgeBase) (n : String) :
    Option ConceptInfo :=
  kb.concepts.find? (fun c => c.name == n)

/-- Embedding of `KnowledgeBase.list_concepts`. -/
def KnowledgeBase.list_concepts (kb : KnowledgeBase) : List String :=
  kb.concepts.map ConceptInfo.name

theorem find?_name_first (n : String) :
    ∀ (l : List ConceptInfo) (c : ConceptInfo),
      l.find? (fun x => x.name == n) = some c →
      c.name = n ∧ ∃ l₁ l₂, l = l₁ ++ c :: l₂ ∧ ∀ x ∈ l₁, x.name ≠ n := by
  intro l
  induction l with
  | nil => intro c h; cases h
  | cons a rest ih =>
    intro c h
    by_cases ha : a.name = n
    · rw [List.find?_cons_of_pos _ (by simpa using ha)] at h
      cases h
      exact ⟨ha, [], rest, rfl, by simp⟩
    · rw [List.find?_cons_of_neg _ (by simpa using ha)] at h
      rcases ih c h with ⟨hn, l₁, l₂, heq, hall⟩
      refine ⟨hn, a :: l₁, l₂, by rw [heq]; rfl, ?_⟩
      intro x hx
      rcases List.mem_cons.mp hx with hx | hx
      · exact hx ▸ ha
      · exact hall x hx

/-- C9: `get_concept` never raises: it returns the first concept in insertion
order whose name matches when one exists (even when `add_concept` has
appended several concepts with the same name), and the `None` sentinel
exactly when no stored concept has the name; an earlier match survives any
later `add_concept`. -/
theorem get_concept_spec (kb : KnowledgeBase) (n : String) :
    (kb.get_concept n = none ↔ ∀ c ∈ kb.concepts, c.name ≠ n)
    ∧ (∀ c : ConceptInfo, kb.get_concept n = some c →
        c.name = n ∧ ∃ l₁ l₂, kb.concepts = l₁ ++ c :: l₂
          ∧ ∀ x ∈ l₁, x.name ≠ n)
    ∧ (∀ c x : ConceptInfo, kb.get_concept n = some x →
        (kb.add_concept c).get_concept n = some x) := by
  refine ⟨?_, fun c h => find?_name_first n kb.concepts c h, fun c x h => ?_⟩
  · rw [KnowledgeBase.get_concept, List.find?_eq_none]
    constructor
    · intro h c hc
      simpa using h c hc
    · intro h c hc
      simpa using h c hc
  · rw [KnowledgeBase.get_concept] at h ⊢
    rw [KnowledgeBase.add_concept]
    rw [List.find?_append, h]
    rfl

/-- C9 (witness): on a knowledge base holding two concepts with the same
name, `get_concept` returns the first in insertion order, and it survives a
further duplicate append. -/
theorem get_concept_spec_witness :
    ((ConceptInfo.mk "a" "d1" "r1").name = "a"
      ∧ ∃ l₁ l₂,
          (KnowledgeBase.mk [⟨"a", "d1", "r1"⟩, ⟨"a", "d2", "r2"⟩]).concepts
              = l₁ ++ ⟨"a", "d1", "r1"⟩ :: l₂
            ∧ ∀ x ∈ l₁, x.name ≠ "a")
    ∧ (KnowledgeBase.add_concept ⟨[⟨"a", "d1", "r1"⟩, ⟨"a", "d2", "r2"⟩]⟩
          ⟨"a", "d3", "r3"⟩).get_concept "a"
        = some ⟨"a", "d1", "r1"⟩ :=
  ⟨(get_concept_spec ⟨[⟨"a", "d1", "r1"⟩, ⟨"a", "d2", "r2"⟩]⟩ "a").2.1 _ rfl,
   (get_concept_spec ⟨[⟨"a", "d1", "r1"⟩, ⟨"a", "d2", "r2"⟩]⟩ "a").2.2 _ _ rfl⟩

/-- Embedding of `StyleManager` (`tools/style_manager.py`). -/
structure StyleManager where
  style_guide : StyleGuide
  deriving DecidableEq, Repr

/-- Embedding of `StyleManager.set_style_guide`: whole-value replace. -/
def StyleManager.set_style_guide (st : StyleManager) (g : StyleGuide) :
    StyleManager :=
  { st with style_guide := g }

/-- Embedding of `StyleManager.get_style_guide`. -/
def StyleManager.get_style_guide (st : StyleManager) : StyleGuide :=
  st.style_guide

/-- The `prompt_parts` list built by `style_guide_to_prompt`: the four fixed
field lines, plus the formatting-preferences line exactly when
`formatting_preferences` is truthy (non-empty). -/
def prompt_parts (sg : StyleGuide) : List String :=
  ["Main Language: " ++ sg.main_language,
   "Tone: " ++ sg.tone,
   "Voice: " ++ sg.voice,
   "Target Audience: " ++ sg.target_audience]
  ++ (if sg.formatting_preferences ≠ "" then
        ["Formatting Preferences: " ++ sg.formatting_preferences]
      else [])

/-- Embedding of `StyleManager.style_guide_to_prompt`:
`"\n".join(prompt_parts)`. -/
def StyleManager.style_guide_to_prompt (st : StyleManager) : String :=
  String.intercalate "\n" (prompt_parts st.style_guide)

theorem fp_line_not_mem_of_empty (sg : StyleGuide)
    (hfp : sg.formatting_preferences = "") (s : String) :
    ("Formatting Preferences: " ++ s) ∉ prompt_parts sg := by
  intro hmem
  rw [prompt_parts, hfp] at hmem
  simp only [ne_eq, not_true_eq_false, if_false, List.append_nil,
    List.mem_cons, List.not_mem_nil, or_false] at hmem
  rcases hmem with h | h | h | h
  · have h4 : some 'F' = some 'M' :=
      congrArg (fun x : String => x.data.head?) h
    simp at h4
  · have h4 : some 'F' = some 'T' :=
      congrArg (fun x : String => x.data.head?) h
    simp at h4
  · have h4 : some 'F' = some 'V' :=
      congrArg (fun x : String => x.data.head?) h
    simp at h4
  · have h4 : some 'F' = some 'T' :=
      congrArg (fun x : String => x.data.head?) h
    simp at h4

/-- C10: `style_guide_to_prompt` renders the guide as the newline-joined flat
field list `prompt_parts`, which always contains the main-language, tone,
voice and target-audience lines, and contains a formatting-preferences line
if and only if the `formatting_preferences` field is non-empty. -/
theorem style_guide_to_prompt_spec (st : StyleManager) :
    st.style_guide_to_prompt
        = String.intercalate "\n" (prompt_parts st.style_guide)
    ∧ ("Main Language: " ++ st.style_guide.main_language)
        ∈ prompt_parts st.style_guide
    ∧ ("Tone: " ++ st.style_guide.tone) ∈ prompt_parts st.style_guide
    ∧ ("Voice: " ++ st.style_guide.voice) ∈ prompt_parts st.style_guide
    ∧ ("Target Audience: " ++ st.style_guide.target_audience)
        ∈ prompt_parts st.style_guide
    ∧ ((∃ s : String,
          ("Formatting Preferences: " ++ s) ∈ prompt_parts st.style_guide)
        ↔ st.style_guide.formatting_preferences ≠ "") := by
  refine ⟨rfl, by simp [prompt_parts], by simp [prompt_parts],
    by simp [prompt_parts], by simp [prompt_parts], ?_, ?_⟩
  · rintro ⟨s, hs⟩
    intro hfp
    exact fp_line_not_mem_of_empty st.style_guide hfp s hs
  · intro hfp
    refine ⟨st.style_guide.formatting_preferences, ?_⟩
    rw [prompt_parts, if_pos hfp]
    simp

/-- C10 (witness): the formatting-preferences line appears for a concrete
non-empty preference and is absent for the empty one. -/
theorem style_guide_to_prompt_spec_witness :
    (∃ s : String, ("Formatting Preferences: " ++ s)
        ∈ prompt_parts ⟨"English", "formal", "active", "general", "md"⟩)
    ∧ ¬ (∃ s : String, ("Formatting Preferences: " ++ s)
        ∈ prompt_parts ⟨"English", "formal", "active", "general", ""⟩) :=
  ⟨(style_guide_to_prompt_spec
      ⟨⟨"English", "formal", "active", "general", "md"⟩⟩).2.2.2.2.2.mpr
      (by decide),
   fun h =>
    (style_guide_to_prompt_spec
      ⟨⟨"English", "formal", "active", "general", ""⟩⟩).2.2.2.2.2.mp h rfl⟩

/-- The value a tool-bound operation resolves from the per-call context
(`getattr(ctx.deps, attr_name) if attr_name else ctx.deps`): it may be
absent (`None`), present but not an instance of the expected store type, or
the expected store. -/
inductive Resolved (σ : Type) where
  | missing : Resolved σ
  | wrongType : Resolved σ
  | store : σ → Resolved σ
  deriving DecidableEq

/-- The uniform validation-then-delegate pattern of every tool-bound
operation: raise the dependency-missing `ValueError` when the resolved value
is `None` or not an instance of the expected store type (leaving the
resolved state untouched), otherwise delegate to the underlying store
method. -/
def runTool {σ α : Type} (msg : String) (dep : Resolved σ)
    (f : σ → σ × α) : Resolved σ × Except String α :=
  match dep with
  | .store s => (.store (f s).1, .ok (f s).2)
  | .missing => (.missing, .error msg)
  | .wrongType => (.wrongType, .error msg)

/-- Embedding of `add_section_tool` (`structure_manager.py`). -/
def add_section_tool (dep : Resolved StructureManager) (s : SectionInfo) :
    Resolved StructureManager × Except String Unit :=
  runTool "StructureManager dependency is not provided." dep
    (fun sm => (sm.add_section s, ()))

/-- Embedding of `set_style_guide_tool` (`style_manager.py`). -/
def set_style_guide_tool (dep : Resolved StyleManager) (g : StyleGuide) :
    Resolved StyleManager × Except String Unit :=
  runTool "StyleManager dependency is not provided." dep
    (fun st => (st.set_style_guide g, ()))

/-- C6: dependency validation of tool-bound operations. Whenever the
resolved dependency is absent or not of the expected store type, the uniform
`runTool` wrapper returns the dependency-missing error and the resolved
state unchanged — the underlying store method never runs, so no store state
is mutated; instantiated at `add_section_tool` and `set_style_guide_tool`. -/
theorem tool_dependency_validation :
    (∀ (σ α : Type) (msg : String) (dep : Resolved σ) (f : σ → σ × α),
        (∀ s : σ, dep ≠ .store s) →
        runTool msg dep f = (dep, .error msg))
    ∧ (∀ s : SectionInfo,
        add_section_tool .missing s
          = (.missing, .error "StructureManager dependency is not provided.")
        ∧ add_section_tool .wrongType s
          = (.wrongType,
             .error "StructureManager dependency is not provided."))
    ∧ (∀ g : StyleGuide,
        set_style_guide_tool .missing g
          = (.missing, .error "StyleManager dependency is not provided.")
        ∧ set_style_guide_tool .wrongType g
          = (.wrongType, .error "StyleManager dependency is not provided.")) := by
  refine ⟨fun σ α msg dep f hdep => ?_, fun s => ⟨rfl, rfl⟩,
    fun g => ⟨rfl, rfl⟩⟩
  cases dep with
  | missing => rfl
  | wrongType => rfl
  | store s => exact absurd rfl (hdep s)

/-- C6 (witness): the generic wrapper at a concrete missing dependency. -/
theorem tool_dependency_validation_witness :
    runTool "m" (Resolved.missing : Resolved Nat) (fun s => (s + 1, s))
      = (Resolved.missing, Except.error "m") :=
  tool_dependency_validation.1 Nat Nat "m" Resolved.missing
    (fun s => (s + 1, s)) (fun s h => by cases h)
